import Mathlib

/-!
Verification of the page-assembly and link-resolution engine of the
webpage-HTML-export plugin (`src/plugin/website/webpage.ts`).

The embedding models JavaScript strings as Lean `String` (a wrapper around
`List Char`), JavaScript `string | undefined` values as `Option String`
(`none` = `undefined`), JS `Map` objects as association lists, and DOM
elements as records of attributes and classes.  JS-specific primitives
(`String.prototype.split`, `replaceAll`, `startsWith`, `trim`, truthiness,
the `/\w+:(\/\/|\\\\)/` regex) are implemented character-for-character below.

The `Path` utility (`src/plugin/utils/path.ts`) and the `Website`/`Index`
collaborators are not part of the analysed sources; the parts of their
behaviour that the claims depend on are either taken as parameters
(`getFilePathFromSrc`, `indexGetFile`) or modelled from the spec (`PPath`).
-/

namespace WebpageExport

/-- JS word character, i.e. the regex class `\w` = `[A-Za-z0-9_]`
(`Char.isAlpha`/`Char.isDigit` are exactly the ASCII ranges). -/
def isWordChar (c : Char) : Bool :=
  c.isAlpha || c.isDigit || c == '_'

/-- Does the char list contain a match of the regex `\w+:(\/\/|\\\\)`,
i.e. a word character immediately followed by `:` and then `//` or `\\`?
(A `\w+` run matches iff its last character does, so one word char before
the colon is an equivalent condition.) -/
def hasSchemeSep : List Char → Bool
  | c1 :: c2 :: c3 :: c4 :: rest =>
    (isWordChar c1 && c2 == ':' &&
      ((c3 == '/' && c4 == '/') || (c3 == '\\' && c4 == '\\')))
    || hasSchemeSep (c2 :: c3 :: c4 :: rest)
  | _ => false

/-- `hasSchemeSep` on a `String`, modelling `/\w+:(\/\/|\\\\)/.exec(link)`
being non-null. -/
def hasSchemeSepStr (s : String) : Bool :=
  hasSchemeSep s.data

/-- Is `p` a prefix of `s` (char-list level)? -/
def isPrefixChars : List Char → List Char → Bool
  | [], _ => true
  | _ :: _, [] => false
  | p :: ps, c :: cs => p == c && isPrefixChars ps cs

/-- JS `s.startsWith(p)`. -/
def strStartsWith (s p : String) : Bool :=
  isPrefixChars p.data s.data

/-- JS `s.split(sep)` for a single-character separator: split on every
occurrence, keeping empty segments; `"".split(sep)` gives `[""]`. -/
def splitOnCharAux (sep : Char) : List Char → List Char → List (List Char)
  | acc, [] => [acc.reverse]
  | acc, c :: rest =>
    if c == sep then acc.reverse :: splitOnCharAux sep [] rest
    else splitOnCharAux sep (c :: acc) rest

def splitOnChar (sep : Char) (s : List Char) : List (List Char) :=
  splitOnCharAux sep [] s

/-- JS `s.trim()` (ASCII whitespace model). -/
def trimChars (cs : List Char) : List Char :=
  ((cs.dropWhile Char.isWhitespace).reverse.dropWhile Char.isWhitespace).reverse

def strTrim (s : String) : String :=
  ⟨trimChars s.data⟩

/-- JS `s.substring(1)`. -/
def jsSubstring1 (s : String) : String :=
  ⟨s.data.drop 1⟩

/-- JS `replaceAll("__", "_")`: left-to-right, non-overlapping
(`"___"` becomes `"__"`). -/
def collapseDoubleUnderscore : List Char → List Char
  | '_' :: '_' :: rest => '_' :: collapseDoubleUnderscore rest
  | c :: rest => c :: collapseDoubleUnderscore rest
  | [] => []

/-- The heading-text normalisation used throughout `webpage.ts`:
`.replaceAll(" ", "_").replaceAll(":", "").replaceAll("__", "_")`. -/
def normalizeHeading (s : String) : String :=
  ⟨collapseDoubleUnderscore
    (((s.data.map (fun c => if c == ' ' then '_' else c)).filter (fun c => c != ':')))⟩

/-- Decimal digit character for `d % 10`. -/
def digitChar (d : Nat) : Char :=
  if d % 10 = 0 then '0' else if d % 10 = 1 then '1' else if d % 10 = 2 then '2'
  else if d % 10 = 3 then '3' else if d % 10 = 4 then '4' else if d % 10 = 5 then '5'
  else if d % 10 = 6 then '6' else if d % 10 = 7 then '7' else if d % 10 = 8 then '8'
  else '9'

/-- Decimal rendering, fuel-driven so that it reduces inside the kernel;
`natToDigits` below supplies sufficient fuel. -/
def natToDigitsAux : Nat → Nat → List Char
  | 0, _ => []
  | fuel + 1, n =>
    if n < 10 then [digitChar n]
    else natToDigitsAux fuel (n / 10) ++ [digitChar (n % 10)]

/-- Decimal rendering of a natural number, as JS number-to-string coercion
produces for non-negative integers. -/
def natToDigits (n : Nat) : List Char :=
  natToDigitsAux (n + 1) n

def natStr (n : Nat) : String :=
  ⟨natToDigits n⟩

/-- Numeric value of a decimal digit character. -/
def digitVal (c : Char) : Nat :=
  c.toNat - 48

/-- JS unary `+` on a string of decimal digits. -/
def digitsToNat (ds : List Char) : Nat :=
  ds.foldl (fun a c => a * 10 + digitVal c) 0

/-- JS truthiness of a `string | undefined` value: `undefined` and `""`
are falsy, every other string is truthy. -/
def jsTruthy : Option String → Bool
  | none => false
  | some s => !(s == "")

/-- `Map.get` on an association list (insertion-ordered JS `Map` model). -/
def mapGet {β : Type} : List (String × β) → String → Option β
  | [], _ => none
  | (k', v) :: m, k => if k' = k then some v else mapGet m k

/-- `Map.set` on an association list: overwrite in place or append. -/
def mapSet {β : Type} : List (String × β) → String → β → List (String × β)
  | [], k, v => [(k, v)]
  | (k', v') :: m, k, v =>
    if k' = k then (k, v) :: m else (k', v') :: mapSet m k v

/-- Modelled from the spec: the `Path` utility
(`src/plugin/utils/path.ts`, not among the analysed sources).  A path is a
stem plus an extension; `path`/`pathname` render it, `setExtension` forces
the extension, and `slugify(enabled)` lowercases and replaces spaces by
dashes when enabled and is the identity when disabled (spec section 4.1;
diacritic stripping is irrelevant to the claims and not modelled). -/
structure PPath where
  stem : String
  ext : String
deriving DecidableEq

def PPath.path (p : PPath) : String :=
  if p.ext = "" then p.stem else p.stem ++ "." ++ p.ext

def PPath.pathname (p : PPath) : String :=
  p.path

def PPath.setExtension (p : PPath) (e : String) : PPath :=
  { p with ext := e }

def PPath.extensionName (p : PPath) : String :=
  p.ext

def slugifyString (s : String) : String :=
  ⟨s.data.map (fun c => if c == ' ' then '-' else c.toLower)⟩

def PPath.slugify (p : PPath) (enabled : Bool) : PPath :=
  if enabled then { stem := slugifyString p.stem, ext := slugifyString p.ext } else p

/-- An exportable artifact (`src/plugin/utils/downloadable.ts` interface as
used by `webpage.ts`).  `id` stands in for JS object identity: each
`new Attachment(...)` allocates a fresh id. -/
structure Attachment where
  id : Nat
  sourcePath : String
  targetPath : PPath
  data : String
deriving DecidableEq

/-- The export options `resolveLink`/`remapLinks` read. -/
structure ExportOptions where
  slugifyPaths : Bool
  relativeHeaderLinks : Bool

/-- A DOM element: tag name (uppercased, as `Element.tagName`), whether it
is a descendant of the `.obsidian-document` container and of `head`
(which is what the CSS selectors in `webpage.ts` test), its `textContent`,
attributes and class list. -/
structure Element where
  tag : String
  inObsidianDoc : Bool
  inHead : Bool
  text : String
  attrs : List (String × String)
  classes : List String
deriving DecidableEq

def Element.getAttribute (el : Element) (k : String) : Option String :=
  mapGet el.attrs k

def Element.setAttribute (el : Element) (k v : String) : Element :=
  { el with attrs := mapSet el.attrs k v }

/-- `classList.toggle(c, force)`. -/
def Element.classToggle (el : Element) (c : String) (force : Bool) : Element :=
  if force then
    { el with classes := if c ∈ el.classes then el.classes else el.classes ++ [c] }
  else
    { el with classes := el.classes.filter (fun x => x != c) }

/-- The per-page state and collaborators `Webpage.resolveLink` reads:
its `headerMap`, export options, its own target path and source path, and
the external `Website.getFilePathFromSrc` / `Index.getFile` functions
(collaborators outside the analysed sources, taken as parameters). -/
structure WebpageCtx where
  headerMap : List (String × String)
  exportOptions : ExportOptions
  targetPath : PPath
  sourcePath : String
  getFilePathFromSrc : String → String → PPath
  indexGetFile : String → Bool → Option Attachment

/-- `Webpage.resolveLink` (`webpage.ts` lines 1042-1112), translated
branch by branch.  `link : Option String` models the JS
`string | null` argument and the result `Option String` models
`string | undefined` (`none` = `undefined`, the "leave as-is" signal).
JS quirks preserved faithfully:
* `link.split("?")` runs before `.split("#")`, so a `#` occurring after a
  `?` stays inside the query part;
* `hash` is `hashSplit[1]?.trim()`, i.e. `undefined` when the first `?`-
  segment has no `#`; then `finalHash != ""` is TRUE for `undefined`
  (loose JS inequality), so `finalHash` becomes `"#" + undefined`, the
  literal string `"#undefined"`;
* `if (query)` / `if (finalHash)` are truthiness tests. -/
def resolveLink (w : WebpageCtx) (link : Option String) (linkEl : Element)
    (preferAttachment : Bool) : Option String :=
  match link with
  | none => some ""
  | some l =>
    if l = "" then some ""
    else if !strStartsWith l "app://" && hasSchemeSepStr l then none
    else if strStartsWith l "data:" then none
    else if strStartsWith l "?" then none
    else if strStartsWith l "mailto:" then none
    else if strStartsWith l "#" then
      let headerText :=
        jsSubstring1 (normalizeHeading ((linkEl.getAttribute "data-href").getD l))
      match mapGet w.headerMap headerText with
      | some headerId =>
        let hrefValue := "#" ++ headerText ++ "_" ++ headerId
        some (if w.exportOptions.relativeHeaderLinks then hrefValue
              else w.targetPath.path ++ hrefValue)
      | none => some l
    else
      let querySplit := splitOnChar '?' l.data
      let hashSplit := splitOnChar '#' (querySplit.headD [])
      let path : String := ⟨hashSplit.headD []⟩
      let hash : Option String := (hashSplit.get? 1).map (fun cs => strTrim ⟨cs⟩)
      let query : Option String := (querySplit.get? 1).map (fun cs => strTrim ⟨cs⟩)
      let attachmentPath := w.getFilePathFromSrc path w.sourcePath
      match w.indexGetFile attachmentPath.pathname preferAttachment with
      | none =>
        let resolved := (attachmentPath.slugify w.exportOptions.slugifyPaths).setExtension "html"
        let p1 := resolved.path
        let p2 := if jsTruthy query then p1 ++ "?" ++ query.getD "" else p1
        let p3 := if jsTruthy hash then p2 ++ "#" ++ hash.getD "" else p2
        some p3
      | some attachment =>
        let finalHash0 : String :=
          match hash with
          | none => "#" ++ "undefined"
          | some h => if h = "" then h else "#" ++ h
        let finalHash :=
          if attachment.targetPath.extensionName = "html" then
            let headerText := jsSubstring1 (normalizeHeading finalHash0)
            match mapGet w.headerMap headerText with
            | some headerId => "#" ++ headerText ++ "_" ++ headerId
            | none => finalHash0
          else finalHash0
        let f1 := attachment.targetPath.path
        let f2 := if jsTruthy query then f1 ++ "?" ++ query.getD "" else f1
        let f3 := if finalHash = "" then f2 else f2 ++ finalHash
        some f3

/-- One step of the heading-anchor allocation inside `remapLinks`
(`webpage.ts` lines 1118-1135): normalise the raw heading text, read the
map (a present value is a non-empty digit string, hence truthy, so
`if (headerId)` takes the increment branch exactly when the key is present
with a non-empty value), store the new suffix and return the id written
onto the element, `` `${headerText}_${headerId}` ``. -/
def headerStep (m : List (String × String)) (rawText : String) :
    List (String × String) × String :=
  let headerText := normalizeHeading rawText
  let headerId :=
    match mapGet m headerText with
    | some v => if v = "" then "0" else natStr (digitsToNat v.data + 1)
    | none => "0"
  (mapSet m headerText headerId, headerText ++ "_" ++ headerId)

/-- The heading-allocation pass over the document-order list of raw heading
texts (`data-heading ?? textContent ?? ""` of each `h1..h6`), returning the
final `headerMap` and the ids assigned to the headings in order. -/
def runHeaders : List (String × String) → List String →
    List (String × String) × List String
  | m, [] => (m, [])
  | m, h :: hs =>
    let p := headerStep m h
    let q := runHeaders p.1 hs
    (q.1, p.2 :: q.2)

def isHeaderTag (t : String) : Bool :=
  t == "H1" || t == "H2" || t == "H3" || t == "H4" || t == "H5" || t == "H6"

/-- The raw heading text the allocator reads off a heading element:
`headerEl.getAttribute("data-heading") ?? headerEl.textContent ?? ""`. -/
def rawHeadingText (el : Element) : String :=
  (el.getAttribute "data-heading").getD el.text

/-- The element-level heading pass of `remapLinks` (lines 1118-1135):
walk the page, and on each `h1..h6` element allocate an id with
`headerStep` and write it into the `id` attribute. -/
def headerPass : List (String × String) → List Element →
    List (String × String) × List Element
  | m, [] => (m, [])
  | m, el :: rest =>
    if isHeaderTag el.tag then
      let p := headerStep m (rawHeadingText el)
      let q := headerPass p.1 rest
      (q.1, el.setAttribute "id" p.2 :: q.2)
    else
      let q := headerPass m rest
      (q.1, el :: q.2)

/-- `.obsidian-document [href]:not(head *)` membership. -/
def isHrefLinkElement (el : Element) : Bool :=
  el.inObsidianDoc && !el.inHead && (el.getAttribute "href").isSome

/-- `.obsidian-document [src]:not(head *)` minus Advanced-Slides iframes
(`webpage.ts` lines 477-481). -/
def isSrcLinkElement (el : Element) : Bool :=
  el.inObsidianDoc && !el.inHead && (el.getAttribute "src").isSome &&
  !(el.tag == "IFRAME" && el.getAttribute "data-advanced-slides-embed" == some "true")

/-- The body of the href loop of `remapLinks` (lines 1137-1144):
`newHref ?? href ?? ""` is written back, `target=_self` is set, and
`is-unresolved` is toggled with force `!newHref` (true exactly when
`newHref` is `undefined` or `""`). -/
def remapLinkStep (w : WebpageCtx) (el : Element) : Element :=
  let href := el.getAttribute "href"
  let newHref := resolveLink w href el false
  ((el.setAttribute "href" (newHref.getD (href.getD ""))).setAttribute
      "target" "_self").classToggle "is-unresolved" (!jsTruthy newHref)

/-- `Webpage.remapLinks` (lines 1114-1144): the heading pass populates
`headerMap`, then every `.obsidian-document [href]` element is rewritten.
(The "Open in Browser" button-onclick block at lines 1146-1174 only adds
`onclick` attributes to buttons and is not claim-relevant.)  Each loop acts
on each element independently, so the pass is a `map`. -/
def remapLinks (w : WebpageCtx) (page : List Element) :
    WebpageCtx × List Element :=
  let hp := headerPass w.headerMap page
  let w' := { w with headerMap := hp.1 }
  (w', hp.2.map (fun el => if isHrefLinkElement el then remapLinkStep w' el else el))

/-- Body of the first two loops of `remapEmbedLinks` (lines 1179-1198):
src rewritten via `resolveLink(src, el, true)`, `target=_self` set,
`is-unresolved` toggled on falsy. -/
def remapEmbedSrcStep (w : WebpageCtx) (el : Element) : Element :=
  let src := el.getAttribute "src"
  let newSrc := resolveLink w src el true
  ((el.setAttribute "src" (newSrc.getD (src.getD ""))).setAttribute
      "target" "_self").classToggle "is-unresolved" (!jsTruthy newSrc)

/-- Body of the model-viewer loop of `remapEmbedLinks` (lines 1201-1208):
identical except that no `target` attribute is set. -/
def remapModelViewerStep (w : WebpageCtx) (el : Element) : Element :=
  let src := el.getAttribute "src"
  let newSrc := resolveLink w src el true
  (el.setAttribute "src" (newSrc.getD (src.getD ""))).classToggle
    "is-unresolved" (!jsTruthy newSrc)

/-- The per-element composition of the three sequential loops of
`remapEmbedLinks`: the src-element loop, then the document-wide iframe
loop, then the document-wide model-viewer loop.  The loops touch each
element independently, so running them list-by-list equals composing them
element-by-element. -/
def remapEmbedEl (w : WebpageCtx) (el : Element) : Element :=
  let e1 := if isSrcLinkElement el then remapEmbedSrcStep w el else el
  let e2 := if e1.tag == "IFRAME" then remapEmbedSrcStep w e1 else e1
  if e2.tag == "MODEL-VIEWER" then remapModelViewerStep w e2 else e2

/-- `Webpage.remapEmbedLinks` (lines 1177-1209). -/
def remapEmbedLinks (w : WebpageCtx) (page : List Element) : List Element :=
  page.map (remapEmbedEl w)

/-- The cache key `` `${slideFile.path}#page=${page}` `` (line 882). -/
def embedKey (slidePath : String) (page : Nat) : String :=
  slidePath ++ "#page=" ++ natStr page

/-- Run-scoped mutable state touched by `processEmbed`: the static
`Webpage.advancedSlidesEmbedCache`, the page's `attachments` list, the log
of `renderer.renderFile` invocations (recorded by cache key, to state the
single-flight property), and the object-identity counter for fresh
`Attachment`s. -/
structure EmbedState where
  cache : List (String × Attachment)
  attachments : List Attachment
  renderCalls : List String
  nextId : Nat

/-- External collaborators of `processEmbed`: the optional Advanced Slides
renderer (`renderFile(absPath, {embed:true}) → html | undefined`), the
target-path computation, the fragment rewriter and the vault adapter's
absolute-path mapping — all outside the analysed sources, taken as
parameters. -/
structure EmbedEnv where
  renderFile : String → Option String
  getTargetPath : String → Nat → PPath
  rewriteHtml : String → PPath → String
  absPathOf : String → String

/-- `processEmbed` (`webpage.ts` lines 881-909), state-passing form.
On a cache hit the cached attachment is reused; on a miss the renderer is
invoked (recorded in `renderCalls`); a falsy result returns without
touching the cache; a successful render creates a fresh attachment, caches
it and registers it.  The returned attachment is the one the iframe `src`
is pointed at. -/
def processEmbed (env : EmbedEnv) (slidePath : String) (page : Nat)
    (st : EmbedState) : EmbedState × Option Attachment :=
  let cacheKey := embedKey slidePath page
  match mapGet st.cache cacheKey with
  | some att =>
    ({ st with attachments :=
        if att ∈ st.attachments then st.attachments else st.attachments ++ [att] },
     some att)
  | none =>
    let absPath := env.absPathOf slidePath
    match env.renderFile absPath with
    | none =>
      ({ st with renderCalls := st.renderCalls ++ [cacheKey] }, none)
    | some html =>
      let targetPath := env.getTargetPath slidePath page
      let att : Attachment :=
        { id := st.nextId, sourcePath := slidePath, targetPath := targetPath,
          data := env.rewriteHtml html targetPath }
      ({ cache := mapSet st.cache cacheKey att,
         attachments :=
           if att ∈ st.attachments then st.attachments else st.attachments ++ [att],
         renderCalls := st.renderCalls ++ [cacheKey],
         nextId := st.nextId + 1 },
       some att)

/-- A whole export run's sequence of embed references (across all pages),
processed against the shared run-scoped state. -/
def runEmbeds (env : EmbedEnv) : List (String × Nat) → EmbedState →
    EmbedState × List (Option Attachment)
  | [], st => (st, [])
  | r :: rs, st =>
    let p := processEmbed env r.1 r.2 st
    let q := runEmbeds env rs p.1
    (q.1, p.2 :: q.2)

/-- The state at the start of an export run: the embed cache is cleared. -/
def emptyEmbedState : EmbedState :=
  ⟨[], [], [], 0⟩

/-- Number of occurrences of `t` in a list of strings. -/
def countOcc (t : String) : List String → Nat
  | [] => 0
  | h :: hs => (if h = t then 1 else 0) + countOcc t hs

/-- Increment a per-text occurrence counter at one text. -/
def bumpBase (base : String → Nat) (t : String) : String → Nat :=
  fun t' => if t' = t then base t' + 1 else base t'

/-- Specification of the ids the heading allocator assigns: the heading at
each position gets `normalizedText ++ "_" ++ (occurrences of that
normalized text so far)`, starting from the counter `base`. -/
def idsSpec (base : String → Nat) : List String → List String
  | [] => []
  | h :: hs =>
    (normalizeHeading h ++ "_" ++ natStr (base (normalizeHeading h))) ::
      idsSpec (bumpBase base (normalizeHeading h)) hs

/-- The ids the heading pass wrote onto the heading elements, in document
order. -/
def idsOf (page : List Element) : List String :=
  page.filterMap (fun el =>
    if isHeaderTag el.tag then some ((el.getAttribute "id").getD "") else none)

/-- The raw heading texts of a page's heading elements in document order. -/
def rawHeadings (page : List Element) : List String :=
  page.filterMap (fun el =>
    if isHeaderTag el.tag then some (rawHeadingText el) else none)

/-! ### Concrete fixtures used by the evaluation and witness theorems -/

/-- A page context whose Index knows `notes/page.md` (an exported HTML
page with a heading `Section`) and `files/doc.pdf` (a plain attachment),
with slugification off and relative header links on. -/
def wEx : WebpageCtx :=
  { headerMap := [("Section", "0")],
    exportOptions := { slugifyPaths := false, relativeHeaderLinks := true },
    targetPath := ⟨"cur", "html"⟩,
    sourcePath := "cur.md",
    getFilePathFromSrc := fun p _ =>
      if p = "notes/page.md" then ⟨"notes/page", "md"⟩
      else if p = "files/doc.pdf" then ⟨"files/doc", "pdf"⟩
      else ⟨p, ""⟩,
    indexGetFile := fun pn _ =>
      if pn = "notes/page.md" then
        some { id := 0, sourcePath := "notes/page.md",
               targetPath := ⟨"notes/page", "html"⟩, data := "" }
      else if pn = "files/doc.pdf" then
        some { id := 1, sourcePath := "files/doc.pdf",
               targetPath := ⟨"files/doc", "pdf"⟩, data := "" }
      else none }

/-- A context whose page has headings `Intro` and `Setup`. -/
def wC4 : WebpageCtx :=
  { headerMap := (runHeaders [] ["Intro", "Setup"]).1,
    exportOptions := { slugifyPaths := false, relativeHeaderLinks := true },
    targetPath := ⟨"cur", "html"⟩,
    sourcePath := "cur.md",
    getFilePathFromSrc := fun p _ => ⟨p, ""⟩,
    indexGetFile := fun _ _ => none }

def elPlain : Element :=
  { tag := "A", inObsidianDoc := true, inHead := false, text := "",
    attrs := [], classes := [] }

def elExternal : Element :=
  { tag := "A", inObsidianDoc := true, inHead := false, text := "",
    attrs := [("href", "https://example.com/x.png")], classes := [] }

def elMissing : Element :=
  { tag := "A", inObsidianDoc := true, inHead := false, text := "",
    attrs := [("href", "missing/file.md")], classes := [] }

def elEmptyHref : Element :=
  { tag := "A", inObsidianDoc := true, inHead := false, text := "",
    attrs := [("href", "")], classes := [] }

/-- A `model-viewer` element outside the `.obsidian-document` container
(so only the document-wide model-viewer loop touches it). -/
def elModelViewer : Element :=
  { tag := "MODEL-VIEWER", inObsidianDoc := false, inHead := false, text := "",
    attrs := [("src", "https://cdn.example.com/model.glb")], classes := [] }

/-- An embed environment whose renderer always succeeds. -/
def envOk : EmbedEnv :=
  { renderFile := fun _ => some "<section>slide</section>",
    getTargetPath := fun p n => ⟨p ++ "-" ++ natStr n, "html"⟩,
    rewriteHtml := fun h _ => h,
    absPathOf := fun p => p }

/-- An embed environment whose renderer always fails. -/
def envFail : EmbedEnv :=
  { renderFile := fun _ => none,
    getTargetPath := fun p n => ⟨p ++ "-" ++ natStr n, "html"⟩,
    rewriteHtml := fun h _ => h,
    absPathOf := fun p => p }

/-! ## Basic lemmas about the string and map primitives -/

theorem data_append (a b : String) : (a ++ b).data = a.data ++ b.data := rfl

theorem string_ext {a b : String} (h : a.data = b.data) : a = b := by
  cases a; cases b; exact congrArg String.mk h

theorem mapGet_mapSet {β : Type} (m : List (String × β)) (k t : String) (v : β) :
    mapGet (mapSet m k v) t = if k = t then some v else mapGet m t := by
  induction m with
  | nil => simp [mapGet, mapSet]
  | cons p m ih =>
    obtain ⟨k', v'⟩ := p
    by_cases hk : k' = k
    · subst hk
      simp only [mapSet, if_pos rfl, mapGet]
      by_cases ht : k' = t
      · simp [ht]
      · simp [ht]
    · simp only [mapSet, if_neg hk, mapGet]
      by_cases ht : k' = t
      · subst ht
        rw [if_pos rfl, if_neg (fun h => hk h.symm), if_pos rfl]
      · rw [if_neg ht, ih, if_neg ht]

theorem natToDigitsAux_irrel :
    ∀ {f1 f2 n : Nat}, n < f1 → n < f2 →
      natToDigitsAux f1 n = natToDigitsAux f2 n := by
  intro f1
  induction f1 with
  | zero => intro f2 n h1; omega
  | succ k ih =>
    intro f2 n h1 h2
    cases f2 with
    | zero => omega
    | succ j =>
      show natToDigitsAux (k + 1) n = natToDigitsAux (j + 1) n
      simp only [natToDigitsAux]
      by_cases hn : n < 10
      · rw [if_pos hn, if_pos hn]
      · rw [if_neg hn, if_neg hn]
        have hd : n / 10 < n := Nat.div_lt_self (by omega) (by omega)
        rw [@ih j (n / 10) (by omega) (by omega)]

/-- The recursive unfolding of `natToDigits`. -/
theorem natToDigits_unfold (n : Nat) :
    natToDigits n =
      if n < 10 then [digitChar n]
      else natToDigits (n / 10) ++ [digitChar (n % 10)] := by
  show natToDigitsAux (n + 1) n = _
  simp only [natToDigitsAux]
  by_cases hn : n < 10
  · rw [if_pos hn, if_pos hn]
  · rw [if_neg hn, if_neg hn]
    have hd : n / 10 < n := Nat.div_lt_self (by omega) (by omega)
    show natToDigitsAux n (n / 10) ++ _ = natToDigitsAux (n / 10 + 1) (n / 10) ++ _
    rw [@natToDigitsAux_irrel n (n / 10 + 1) (n / 10) (by omega) (by omega)]

theorem natToDigits_ne_nil (n : Nat) : natToDigits n ≠ [] := by
  rw [natToDigits_unfold]
  split <;> simp

theorem digitChar_toNat (d : Nat) : (digitChar d).toNat = 48 + d % 10 := by
  have h : d % 10 < 10 := Nat.mod_lt _ (by omega)
  unfold digitChar
  split_ifs with h0 h1 h2 h3 h4 h5 h6 h7 h8
  · rw [h0]; decide
  · rw [h1]; decide
  · rw [h2]; decide
  · rw [h3]; decide
  · rw [h4]; decide
  · rw [h5]; decide
  · rw [h6]; decide
  · rw [h7]; decide
  · rw [h8]; decide
  · have h9 : d % 10 = 9 := by omega
    rw [h9]; decide

theorem digitVal_digitChar (d : Nat) : digitVal (digitChar d) = d % 10 := by
  unfold digitVal
  rw [digitChar_toNat]
  omega

theorem natToDigits_toNat_mem {n : Nat} {c : Char} (h : c ∈ natToDigits n) :
    48 ≤ c.toNat ∧ c.toNat ≤ 57 := by
  induction n using Nat.strong_induction_on with
  | _ n ih =>
    rw [natToDigits_unfold] at h
    split at h
    · simp only [List.mem_singleton] at h
      subst h
      rw [digitChar_toNat]
      omega
    · rename_i hn
      rw [List.mem_append] at h
      rcases h with h | h
      · exact ih (n / 10) (Nat.div_lt_self (by omega) (by omega)) h
      · simp only [List.mem_singleton] at h
        subst h
        rw [digitChar_toNat]
        omega

theorem underscore_not_mem_natToDigits (n : Nat) : '_' ∉ natToDigits n := by
  intro h
  have := natToDigits_toNat_mem h
  revert this
  decide

theorem hashChar_not_mem_natToDigits (n : Nat) : '#' ∉ natToDigits n := by
  intro h
  have := natToDigits_toNat_mem h
  revert this
  decide

theorem digitsToNat_append_singleton (xs : List Char) (c : Char) :
    digitsToNat (xs ++ [c]) = digitsToNat xs * 10 + digitVal c := by
  unfold digitsToNat
  rw [List.foldl_append]
  rfl

theorem digitsToNat_natToDigits (n : Nat) : digitsToNat (natToDigits n) = n := by
  induction n using Nat.strong_induction_on with
  | _ n ih =>
    rw [natToDigits_unfold]
    split
    · rename_i hn
      show digitsToNat [digitChar n] = n
      unfold digitsToNat
      simp [digitVal_digitChar, Nat.mod_eq_of_lt hn]
    · rename_i hn
      rw [digitsToNat_append_singleton,
        ih (n / 10) (Nat.div_lt_self (by omega) (by omega)), digitVal_digitChar]
      omega

theorem natToDigits_injective {a b : Nat} (h : natToDigits a = natToDigits b) : a = b := by
  have := congrArg digitsToNat h
  rwa [digitsToNat_natToDigits, digitsToNat_natToDigits] at this

/-- If two strings of the shape `prefix ++ sep :: suffix` agree and neither
suffix contains the separator, both components agree (the decomposition at
the last separator occurrence is unique). -/
theorem append_sep_inj {sep : Char} {xs ys ds es : List Char}
    (hds : sep ∉ ds) (hes : sep ∉ es)
    (h : xs ++ sep :: ds = ys ++ sep :: es) : xs = ys ∧ ds = es := by
  induction xs generalizing ys with
  | nil =>
    cases ys with
    | nil => simpa using h
    | cons y ys =>
      simp only [List.nil_append, List.cons_append, List.cons.injEq] at h
      obtain ⟨hy, hrest⟩ := h
      exfalso
      apply hds
      rw [hrest]
      exact List.mem_append_right _ (List.mem_cons_self _ _)
  | cons x xs ih =>
    cases ys with
    | nil =>
      simp only [List.cons_append, List.nil_append, List.cons.injEq] at h
      obtain ⟨hy, hrest⟩ := h
      exfalso
      apply hes
      rw [← hrest]
      exact List.mem_append_right _ (List.mem_cons_self _ _)
    | cons y ys =>
      simp only [List.cons_append, List.cons.injEq] at h
      obtain ⟨rfl, hrest⟩ := h
      obtain ⟨h1, h2⟩ := ih hrest
      exact ⟨by rw [h1], h2⟩

/-! ## The heading-anchor allocator -/

theorem natStr_zero : natStr 0 = "0" := by decide

theorem natStr_ne_empty (n : Nat) : natStr n ≠ "" := by
  intro h
  exact natToDigits_ne_nil n (congrArg String.data h)

/-- Anchor ids `text ++ "_" ++ suffix` decompose uniquely, because the
decimal suffix contains no underscore. -/
theorem anchorId_inj {t t' : String} {a b : Nat}
    (h : t ++ "_" ++ natStr a = t' ++ "_" ++ natStr b) : t = t' ∧ a = b := by
  have hd : t.data ++ '_' :: natToDigits a = t'.data ++ '_' :: natToDigits b := by
    have h2 := congrArg String.data h
    rw [data_append, data_append, data_append, data_append] at h2
    simpa [natStr, List.append_assoc] using h2
  obtain ⟨h1, h2⟩ := append_sep_inj (underscore_not_mem_natToDigits a)
    (underscore_not_mem_natToDigits b) hd
  exact ⟨string_ext h1, natToDigits_injective h2⟩

/-- One allocator step, under the invariant that the map stores, for every
normalized text, the decimal rendering of (number of occurrences so far
minus one): the step stores the current occurrence count and emits
`text_count`. -/
theorem headerStep_spec (m : List (String × String)) (base : String → Nat) (h : String)
    (hm : ∀ t, mapGet m t = if base t = 0 then none else some (natStr (base t - 1))) :
    headerStep m h =
      (mapSet m (normalizeHeading h) (natStr (base (normalizeHeading h))),
       normalizeHeading h ++ "_" ++ natStr (base (normalizeHeading h))) := by
  simp only [headerStep]
  rw [hm (normalizeHeading h)]
  by_cases h0 : base (normalizeHeading h) = 0
  · rw [if_pos h0, h0, natStr_zero]
  · rw [if_neg h0]
    dsimp only
    rw [if_neg (natStr_ne_empty (base (normalizeHeading h) - 1))]
    have hdata : (natStr (base (normalizeHeading h) - 1)).data
        = natToDigits (base (normalizeHeading h) - 1) := rfl
    rw [hdata, digitsToNat_natToDigits]
    have heq : base (normalizeHeading h) - 1 + 1 = base (normalizeHeading h) := by omega
    rw [heq]

/-- The allocator pass over a whole heading list: it emits exactly the ids
of `idsSpec` and leaves the map storing, for each text, the rendering of
its total occurrence count minus one. -/
theorem runHeaders_spec (hs : List String) (m : List (String × String)) (base : String → Nat)
    (hm : ∀ t, mapGet m t = if base t = 0 then none else some (natStr (base t - 1))) :
    (runHeaders m hs).2 = idsSpec base hs ∧
    ∀ t, mapGet (runHeaders m hs).1 t =
      if base t + countOcc t (hs.map normalizeHeading) = 0 then none
      else some (natStr (base t + countOcc t (hs.map normalizeHeading) - 1)) := by
  induction hs generalizing m base with
  | nil =>
    refine ⟨rfl, fun t => ?_⟩
    simpa [countOcc] using hm t
  | cons h hs ih =>
    have hstep := headerStep_spec m base h hm
    have hm' : ∀ t, mapGet (mapSet m (normalizeHeading h) (natStr (base (normalizeHeading h)))) t =
        if bumpBase base (normalizeHeading h) t = 0 then none
        else some (natStr (bumpBase base (normalizeHeading h) t - 1)) := by
      intro t
      rw [mapGet_mapSet]
      simp only [bumpBase]
      by_cases ht : normalizeHeading h = t
      · subst ht
        simp
      · have hne : ¬ t = normalizeHeading h := fun hh => ht hh.symm
        rw [if_neg ht, hm t, if_neg hne]
    obtain ⟨ih1, ih2⟩ := ih _ _ hm'
    constructor
    · show (runHeaders m (h :: hs)).2 = _
      unfold runHeaders
      rw [hstep]
      simp only [idsSpec]
      rw [← ih1]
    · intro t
      show mapGet (runHeaders m (h :: hs)).1 t = _
      unfold runHeaders
      rw [hstep]
      simp only []
      rw [ih2 t]
      simp only [List.map_cons, countOcc, bumpBase]
      by_cases ht : t = normalizeHeading h
      · rw [if_pos ht, if_pos ht.symm, Nat.add_assoc]
      · rw [if_neg ht,
          if_neg (show ¬ normalizeHeading h = t from fun hh => ht hh.symm), Nat.zero_add]

/-! ## idsSpec properties and the element-level heading pass -/
theorem idsSpec_filter (hs : List String) (base : String → Nat) (t : String) :
    ((hs.map normalizeHeading).zip (idsSpec base hs)).filterMap
        (fun pr => if pr.1 = t then some pr.2 else none) =
      (List.range (countOcc t (hs.map normalizeHeading))).map
        (fun k => t ++ "_" ++ natStr (base t + k)) := by
  induction hs generalizing base with
  | nil => simp [idsSpec, countOcc]
  | cons h hs ih =>
    simp only [List.map_cons, idsSpec, List.zip_cons_cons, List.filterMap_cons, countOcc]
    by_cases ht : normalizeHeading h = t
    · rw [if_pos ht, if_pos ht]
      dsimp only
      rw [Nat.add_comm 1 (countOcc t (hs.map normalizeHeading))]
      rw [List.range_succ_eq_map, List.map_cons, List.map_map]
      have hhead : normalizeHeading h ++ "_" ++ natStr (base (normalizeHeading h))
          = t ++ "_" ++ natStr (base t + 0) := by
        rw [ht, Nat.add_zero]
      rw [hhead]
      congr 1
      rw [ih (bumpBase base (normalizeHeading h))]
      apply List.map_congr_left
      intro k _
      have hb : bumpBase base (normalizeHeading h) t = base t + 1 := by
        simp [bumpBase, ht.symm]
      rw [hb]
      simp only [Function.comp_apply]
      rw [show base t + 1 + k = base t + (k + 1) from by omega]
    · rw [if_neg ht, if_neg ht, Nat.zero_add]
      dsimp only
      rw [ih (bumpBase base (normalizeHeading h))]
      apply List.map_congr_left
      intro k _
      simp only [bumpBase]
      rw [if_neg (show ¬ t = normalizeHeading h from fun hh => ht hh.symm)]

theorem mem_idsSpec {x : String} {base : String → Nat} {hs : List String}
    (h : x ∈ idsSpec base hs) :
    ∃ t k, x = t ++ "_" ++ natStr (base t + k) := by
  induction hs generalizing base with
  | nil => simp [idsSpec] at h
  | cons hh hs ih =>
    simp only [idsSpec, List.mem_cons] at h
    rcases h with h | h
    · exact ⟨normalizeHeading hh, 0, by rw [h, Nat.add_zero]⟩
    · obtain ⟨t, k, hk⟩ := ih h
      by_cases ht : t = normalizeHeading hh
      · refine ⟨t, k + 1, ?_⟩
        rw [hk]
        simp only [bumpBase]
        rw [if_pos ht]
        rw [show base t + 1 + k = base t + (k + 1) from by omega]
      · refine ⟨t, k, ?_⟩
        rw [hk]
        simp only [bumpBase, if_neg ht]

theorem idsSpec_nodup (base : String → Nat) (hs : List String) :
    (idsSpec base hs).Nodup := by
  induction hs generalizing base with
  | nil => simp [idsSpec]
  | cons h hs ih =>
    simp only [idsSpec, List.nodup_cons]
    refine ⟨?_, ih _⟩
    intro hmem
    obtain ⟨t, k, hk⟩ := mem_idsSpec hmem
    obtain ⟨h1, h2⟩ := anchorId_inj hk
    rw [← h1] at h2
    have h3 : bumpBase base (normalizeHeading h) (normalizeHeading h)
        = base (normalizeHeading h) + 1 := by
      simp [bumpBase]
    rw [h3] at h2
    omega

theorem getAttribute_setAttribute_self (el : Element) (k v : String) :
    (el.setAttribute k v).getAttribute k = some v := by
  simp [Element.getAttribute, Element.setAttribute, mapGet_mapSet]

theorem getAttribute_setAttribute_ne (el : Element) (k k' v : String) (h : k ≠ k') :
    (el.setAttribute k v).getAttribute k' = el.getAttribute k' := by
  simp only [Element.getAttribute, Element.setAttribute, mapGet_mapSet]
  rw [if_neg h]

theorem tag_setAttribute (el : Element) (k v : String) :
    (el.setAttribute k v).tag = el.tag := rfl

theorem classes_setAttribute (el : Element) (k v : String) :
    (el.setAttribute k v).classes = el.classes := rfl

theorem attrs_classToggle (el : Element) (c : String) (b : Bool) :
    (el.classToggle c b).attrs = el.attrs := by
  unfold Element.classToggle
  split <;> rfl

theorem getAttribute_classToggle (el : Element) (c : String) (b : Bool) (k : String) :
    (el.classToggle c b).getAttribute k = el.getAttribute k := by
  simp [Element.getAttribute, attrs_classToggle]

theorem mem_classes_classToggle_self (el : Element) (c : String) (b : Bool) :
    c ∈ (el.classToggle c b).classes ↔ b = true := by
  cases b with
  | false =>
    simp only [Element.classToggle, Bool.false_eq_true, if_false]
    simp [List.mem_filter]
  | true =>
    simp only [Element.classToggle, if_true]
    by_cases hmem : c ∈ el.classes
    · rw [if_pos hmem]
      simp [hmem]
    · rw [if_neg hmem]
      simp

theorem headerPass_eq (page : List Element) (m : List (String × String)) :
    (headerPass m page).1 = (runHeaders m (rawHeadings page)).1 ∧
    idsOf (headerPass m page).2 = (runHeaders m (rawHeadings page)).2 := by
  induction page generalizing m with
  | nil => exact ⟨rfl, rfl⟩
  | cons el rest ih =>
    by_cases h : isHeaderTag el.tag
    · have hraw : rawHeadings (el :: rest) = rawHeadingText el :: rawHeadings rest := by
        simp [rawHeadings, List.filterMap_cons, h]
      rw [hraw]
      unfold headerPass runHeaders
      rw [if_pos h]
      obtain ⟨ih1, ih2⟩ := ih (headerStep m (rawHeadingText el)).1
      refine ⟨ih1, ?_⟩
      simp only [idsOf, List.filterMap_cons, tag_setAttribute, if_pos h]
      rw [getAttribute_setAttribute_self]
      simp only [Option.getD_some]
      rw [← ih2]
      rfl
  -- wait careful: idsOf is filterMap over (setAttr :: q.2); need to relate to q.2
    · have hraw : rawHeadings (el :: rest) = rawHeadings rest := by
        simp [rawHeadings, List.filterMap_cons, h]
      rw [hraw]
      unfold headerPass
      rw [if_neg h]
      obtain ⟨ih1, ih2⟩ := ih m
      refine ⟨ih1, ?_⟩
      simp only [idsOf, List.filterMap_cons, if_neg h]
      exact ih2

/-! ## Auxiliary string, split and key lemmas -/
theorem mk_data (s : String) : (⟨s.data⟩ : String) = s := by
  cases s; rfl

theorem str_append_assoc (a b c : String) : a ++ b ++ c = a ++ (b ++ c) := by
  apply string_ext
  rw [data_append, data_append, data_append, data_append, List.append_assoc]

theorem ne_true_of_false {b : Bool} (h : b = false) : ¬ b = true := by
  rw [h]; exact Bool.false_ne_true

theorem splitOnCharAux_no_sep (sep : Char) (cs : List Char) (acc : List Char)
    (h : sep ∉ cs) : splitOnCharAux sep acc cs = [acc.reverse ++ cs] := by
  induction cs generalizing acc with
  | nil => simp [splitOnCharAux]
  | cons c rest ih =>
    have hc : ¬ (c == sep) = true := by
      simp only [beq_iff_eq]
      intro hh
      exact h (hh ▸ List.mem_cons_self c rest)
    simp only [splitOnCharAux, if_neg hc]
    rw [ih (c :: acc) (fun hm => h (List.mem_cons_of_mem c hm))]
    simp

theorem splitOnChar_no_sep (sep : Char) (cs : List Char) (h : sep ∉ cs) :
    splitOnChar sep cs = [cs] := by
  unfold splitOnChar
  rw [splitOnCharAux_no_sep sep cs [] h]
  simp

theorem countOcc_append (t : String) (a b : List String) :
    countOcc t (a ++ b) = countOcc t a + countOcc t b := by
  induction a with
  | nil => simp [countOcc]
  | cons x a ih =>
    show countOcc t (x :: (a ++ b)) = _
    simp only [countOcc]
    rw [ih]
    omega

theorem embedKey_inj {p q : String} {n m : Nat} (h : embedKey p n = embedKey q m) :
    p = q ∧ n = m := by
  have hd := congrArg String.data h
  simp only [embedKey, data_append] at hd
  have hform : ∀ (s : String) (j : Nat),
      s.data ++ ("#page=" : String).data ++ (natStr j).data
        = s.data ++ '#' :: ('p' :: 'a' :: 'g' :: 'e' :: '=' :: natToDigits j) := by
    intro s j
    rw [List.append_assoc]
    rfl
  rw [hform, hform] at hd
  have hmem : ∀ j : Nat, '#' ∉ ('p' :: 'a' :: 'g' :: 'e' :: '=' :: natToDigits j) := by
    intro j hm
    simp only [List.mem_cons] at hm
    rcases hm with h1 | h1 | h1 | h1 | h1 | h1
    · exact absurd h1 (by decide)
    · exact absurd h1 (by decide)
    · exact absurd h1 (by decide)
    · exact absurd h1 (by decide)
    · exact absurd h1 (by decide)
    · exact hashChar_not_mem_natToDigits j h1
  obtain ⟨h1, h2⟩ := append_sep_inj (hmem n) (hmem m) hd
  simp only [List.cons.injEq, true_and] at h2
  exact ⟨string_ext h1, natToDigits_injective h2⟩

/-! ## Remap-pass element lemmas -/
theorem tag_classToggle (el : Element) (c : String) (b : Bool) :
    (el.classToggle c b).tag = el.tag := by
  unfold Element.classToggle
  split <;> rfl

theorem getAttribute_target_remapLinkStep (w : WebpageCtx) (el : Element) :
    (remapLinkStep w el).getAttribute "target" = some "_self" := by
  unfold remapLinkStep
  rw [getAttribute_classToggle, getAttribute_setAttribute_self]

theorem mem_unresolved_remapLinkStep (w : WebpageCtx) (el : Element) :
    "is-unresolved" ∈ (remapLinkStep w el).classes ↔
      jsTruthy (resolveLink w (el.getAttribute "href") el false) = false := by
  unfold remapLinkStep
  rw [mem_classes_classToggle_self]
  rw [Bool.not_eq_true']

theorem tag_remapEmbedSrcStep (w : WebpageCtx) (el : Element) :
    (remapEmbedSrcStep w el).tag = el.tag := by
  unfold remapEmbedSrcStep
  rw [tag_classToggle, tag_setAttribute, tag_setAttribute]

theorem tag_remapModelViewerStep (w : WebpageCtx) (el : Element) :
    (remapModelViewerStep w el).tag = el.tag := by
  unfold remapModelViewerStep
  rw [tag_classToggle, tag_setAttribute]

theorem getAttribute_target_remapEmbedSrcStep (w : WebpageCtx) (el : Element) :
    (remapEmbedSrcStep w el).getAttribute "target" = some "_self" := by
  unfold remapEmbedSrcStep
  rw [getAttribute_classToggle, getAttribute_setAttribute_self]

theorem getAttribute_target_remapModelViewerStep (w : WebpageCtx) (el : Element) :
    (remapModelViewerStep w el).getAttribute "target" = el.getAttribute "target" := by
  unfold remapModelViewerStep
  rw [getAttribute_classToggle, getAttribute_setAttribute_ne _ _ _ _ (by decide)]

/-! ## The embed cache (processEmbed) -/

theorem processEmbed_hit (env : EmbedEnv) (p : String) (n : Nat) (st : EmbedState)
    (a : Attachment) (h : mapGet st.cache (embedKey p n) = some a) :
    (processEmbed env p n st).1.cache = st.cache ∧
    (processEmbed env p n st).1.renderCalls = st.renderCalls ∧
    (processEmbed env p n st).2 = some a := by
  simp only [processEmbed]
  rw [h]
  exact ⟨rfl, rfl, rfl⟩

theorem processEmbed_cache_ne (env : EmbedEnv) (q : String) (m : Nat) (st : EmbedState)
    (k : String) (hk : embedKey q m ≠ k) :
    mapGet (processEmbed env q m st).1.cache k = mapGet st.cache k := by
  simp only [processEmbed]
  rcases hc : mapGet st.cache (embedKey q m) with _ | att
  · rcases hr : env.renderFile (env.absPathOf q) with _ | html
    · rfl
    · show mapGet (mapSet st.cache (embedKey q m) _) k = _
      rw [mapGet_mapSet, if_neg hk]
  · rfl

theorem processEmbed_count_ne (env : EmbedEnv) (q : String) (m : Nat) (st : EmbedState)
    (k : String) (hk : embedKey q m ≠ k) :
    countOcc k (processEmbed env q m st).1.renderCalls = countOcc k st.renderCalls := by
  simp only [processEmbed]
  rcases hc : mapGet st.cache (embedKey q m) with _ | att
  · rcases hr : env.renderFile (env.absPathOf q) with _ | html
    · show countOcc k (st.renderCalls ++ [embedKey q m]) = _
      rw [countOcc_append]
      simp [countOcc, hk]
    · show countOcc k (st.renderCalls ++ [embedKey q m]) = _
      rw [countOcc_append]
      simp [countOcc, hk]
  · rfl

theorem processEmbed_miss_success (env : EmbedEnv) (p : String) (n : Nat) (st : EmbedState)
    (html : String)
    (hmiss : mapGet st.cache (embedKey p n) = none)
    (hr : env.renderFile (env.absPathOf p) = some html) :
    ∃ att, (processEmbed env p n st).1.cache = mapSet st.cache (embedKey p n) att ∧
      (processEmbed env p n st).1.renderCalls = st.renderCalls ++ [embedKey p n] ∧
      (processEmbed env p n st).2 = some att := by
  simp only [processEmbed]
  rw [hmiss, hr]
  exact ⟨_, rfl, rfl, rfl⟩

theorem runEmbeds_cons (env : EmbedEnv) (q : String) (m : Nat) (rs : List (String × Nat))
    (st : EmbedState) :
    runEmbeds env ((q, m) :: rs) st =
      ((runEmbeds env rs (processEmbed env q m st).1).1,
       (processEmbed env q m st).2 :: (runEmbeds env rs (processEmbed env q m st).1).2) := by
  rfl

theorem runEmbeds_cached (env : EmbedEnv) (reqs : List (String × Nat)) (p : String) (n : Nat)
    (a : Attachment) :
    ∀ st, mapGet st.cache (embedKey p n) = some a →
    mapGet (runEmbeds env reqs st).1.cache (embedKey p n) = some a ∧
    countOcc (embedKey p n) (runEmbeds env reqs st).1.renderCalls
      = countOcc (embedKey p n) st.renderCalls ∧
    ∀ pr ∈ reqs.zip (runEmbeds env reqs st).2, pr.1 = (p, n) → pr.2 = some a := by
  induction reqs with
  | nil =>
    intro st h
    exact ⟨h, rfl, by simp⟩
  | cons r rs ih =>
    intro st h
    obtain ⟨q, m⟩ := r
    rw [runEmbeds_cons]
    by_cases hk : embedKey q m = embedKey p n
    · have hqa : mapGet st.cache (embedKey q m) = some a := by rw [hk]; exact h
      obtain ⟨hc, hrc, hres⟩ := processEmbed_hit env q m st a hqa
      obtain ⟨ih1, ih2, ih3⟩ := ih (processEmbed env q m st).1 (by rw [hc]; exact h)
      refine ⟨ih1, by rw [ih2, hrc], ?_⟩
      intro pr hpr hpr1
      rcases List.mem_cons.mp hpr with hii | hii
      · rw [hii]
        exact hres
      · exact ih3 pr hii hpr1
    · have hc := processEmbed_cache_ne env q m st (embedKey p n) hk
      obtain ⟨ih1, ih2, ih3⟩ := ih (processEmbed env q m st).1 (by rw [hc]; exact h)
      refine ⟨ih1, by rw [ih2, processEmbed_count_ne env q m st _ hk], ?_⟩
      intro pr hpr hpr1
      rcases List.mem_cons.mp hpr with hii | hii
      · exfalso
        apply hk
        rw [hii] at hpr1
        have hqm : (q, m) = (p, n) := hpr1
        rw [Prod.mk.injEq] at hqm
        rw [hqm.1, hqm.2]
      · exact ih3 pr hii hpr1

theorem runEmbeds_fresh (env : EmbedEnv) (reqs : List (String × Nat)) (p : String) (n : Nat)
    (hsucc : (env.renderFile (env.absPathOf p)).isSome = true) :
    ∀ st, mapGet st.cache (embedKey p n) = none →
      countOcc (embedKey p n) st.renderCalls = 0 →
    countOcc (embedKey p n) (runEmbeds env reqs st).1.renderCalls ≤ 1 ∧
    ∀ pr ∈ reqs.zip (runEmbeds env reqs st).2, pr.1 = (p, n) →
      pr.2.isSome = true ∧
      pr.2 = mapGet (runEmbeds env reqs st).1.cache (embedKey p n) := by
  induction reqs with
  | nil =>
    intro st hmiss hcnt
    refine ⟨?_, by simp⟩
    show countOcc (embedKey p n) st.renderCalls ≤ 1
    omega
  | cons r rs ih =>
    intro st hmiss hcnt
    obtain ⟨q, m⟩ := r
    rw [runEmbeds_cons]
    by_cases hk : embedKey q m = embedKey p n
    · obtain ⟨hq, hm⟩ := embedKey_inj hk
      subst hq
      subst hm
      obtain ⟨html, hr⟩ := Option.isSome_iff_exists.mp hsucc
      obtain ⟨att, hc, hrc, hres⟩ := processEmbed_miss_success env q m st html hmiss hr
      have hcache1 : mapGet (processEmbed env q m st).1.cache (embedKey q m) = some att := by
        rw [hc, mapGet_mapSet, if_pos rfl]
      obtain ⟨ch1, ch2, ch3⟩ := runEmbeds_cached env rs q m att (processEmbed env q m st).1 hcache1
      have hcnt1 : countOcc (embedKey q m) (processEmbed env q m st).1.renderCalls = 1 := by
        rw [hrc, countOcc_append, hcnt]
        simp [countOcc]
      refine ⟨by rw [ch2, hcnt1], ?_⟩
      intro pr hpr hpr1
      rcases List.mem_cons.mp hpr with hii | hii
      · rw [hii]
        constructor
        · rw [hres]
          rfl
        · rw [hres, ch1]
      · refine ⟨?_, ?_⟩
        · rw [ch3 pr hii hpr1]
          rfl
        · rw [ch3 pr hii hpr1, ch1]
    · have hc := processEmbed_cache_ne env q m st (embedKey p n) hk
      have hrc := processEmbed_count_ne env q m st (embedKey p n) hk
      obtain ⟨ih1, ih2⟩ := ih (processEmbed env q m st).1 (by rw [hc]; exact hmiss)
        (by rw [hrc]; exact hcnt)
      refine ⟨ih1, ?_⟩
      intro pr hpr hpr1
      rcases List.mem_cons.mp hpr with hii | hii
      · exfalso
        apply hk
        rw [hii] at hpr1
        have hqm : (q, m) = (p, n) := hpr1
        rw [Prod.mk.injEq] at hqm
        rw [hqm.1, hqm.2]
      · exact ih2 pr hii hpr1

/-! ## The claims -/

/-- C1: evaluation of `resolveLink` at the claim's own example.  With the
Index resolving `notes/page.md` to the HTML page `notes/page.html` and
`Section` a known heading (stored suffix 0), resolving
`"notes/page.md?x=1#Section"` returns
`"notes/page.html?x=1#Section#undefined"` and NOT the claimed
`"notes/page.html?x=1#Section_0"`: the code splits on `?` before `#`, so
the fragment stays inside the query, and the missing parsed hash makes
`finalHash != ""` true for `undefined`, appending a literal
`"#undefined"`. -/
theorem claim_C1_divergence :
    resolveLink wEx (some "notes/page.md?x=1#Section") elPlain false
      = some "notes/page.html?x=1#Section#undefined" ∧
    ¬ resolveLink wEx (some "notes/page.md?x=1#Section") elPlain false
      = some "notes/page.html?x=1#Section_0" := by
  decide

/-- Counterexample to C2 as stated: after `remapLinks`, the anchor with
the external (deliberately left as-is) reference `https://example.com/x.png`
DOES carry `is-unresolved`, while the anchor whose path `missing/file.md`
is absent from the Index is NOT marked (it received the truthy
synthesized path `missing/file.md.html`). -/
theorem claim_C2_counterexample :
    "is-unresolved" ∈ ((remapLinks wEx [elExternal]).2.headD elExternal).classes ∧
    "is-unresolved" ∉ ((remapLinks wEx [elMissing]).2.headD elMissing).classes ∧
    ((remapLinks wEx [elMissing]).2.headD elMissing).getAttribute "href"
      = some "missing/file.md.html" := by
  decide

/-- C2 (amended): for every path reference absent from the Index (and not
matching any pass-through guard), `resolveLink` returns the synthesized
slugified path with a `.html` extension — the function is total, so no
exception is possible — and after the remap pass an element carries the
`is-unresolved` class exactly when `resolveLink` returned the `undefined`
leave-as-is signal or the empty string.  Consequently an element whose
path could not be resolved gets the (truthy) synthesized path and is NOT
marked `is-unresolved`, while pass-through references (external URLs,
`data:`, query-only, `mailto:`) and empty references ARE marked; this is
the opposite of the marking the claim states, see
`claim_C2_counterexample`. -/
theorem claim_C2 (w : WebpageCtx) (el : Element) (pa : Bool) (l : String)
    (h1 : (!strStartsWith l "app://" && hasSchemeSepStr l) = false)
    (h2 : strStartsWith l "data:" = false)
    (h3 : strStartsWith l "?" = false)
    (h4 : strStartsWith l "mailto:" = false)
    (h5 : strStartsWith l "#" = false)
    (h6 : ¬ l = "")
    (h7 : '?' ∉ l.data)
    (h8 : '#' ∉ l.data)
    (h9 : w.indexGetFile (w.getFilePathFromSrc l w.sourcePath).pathname pa = none) :
    (resolveLink w (some l) el pa =
      some (((w.getFilePathFromSrc l w.sourcePath).slugify
        w.exportOptions.slugifyPaths).setExtension "html").path) ∧
    (∃ b, (((w.getFilePathFromSrc l w.sourcePath).slugify
        w.exportOptions.slugifyPaths).setExtension "html").path = b ++ ".html") ∧
    ("is-unresolved" ∈ (remapLinkStep w el).classes ↔
      jsTruthy (resolveLink w (el.getAttribute "href") el false) = false) := by
  refine ⟨?_, ?_, mem_unresolved_remapLinkStep w el⟩
  · simp only [resolveLink]
    rw [if_neg h6]
    rw [if_neg (ne_true_of_false h1)]
    rw [if_neg (ne_true_of_false h2)]
    rw [if_neg (ne_true_of_false h3)]
    rw [if_neg (ne_true_of_false h4)]
    rw [if_neg (ne_true_of_false h5)]
    rw [splitOnChar_no_sep '?' l.data h7]
    simp only [List.headD_cons]
    rw [splitOnChar_no_sep '#' l.data h8]
    simp only [List.headD_cons, mk_data]
    rw [h9]
    simp only [List.get?_cons_succ, List.get?_nil, Option.map_none']
    rw [if_neg (show ¬ jsTruthy none = true from by decide)]
    rw [if_neg (show ¬ jsTruthy none = true from by decide)]
  · refine ⟨((w.getFilePathFromSrc l w.sourcePath).slugify w.exportOptions.slugifyPaths).stem, ?_⟩
    simp only [PPath.setExtension, PPath.path]
    rw [if_neg (show ¬ ("html" : String) = "" from by decide)]
    rw [str_append_assoc]
    rw [show ("." ++ "html" : String) = ".html" from by decide]

/-- Witness for C2 at a concrete unknown path. -/
theorem claim_C2_witness :
    ((!strStartsWith "missing/file.md" "app://" && hasSchemeSepStr "missing/file.md") = false ∧
      '?' ∉ ("missing/file.md" : String).data ∧
      wEx.indexGetFile
        (wEx.getFilePathFromSrc "missing/file.md" wEx.sourcePath).pathname false = none) ∧
    (resolveLink wEx (some "missing/file.md") elMissing false =
      some (((wEx.getFilePathFromSrc "missing/file.md" wEx.sourcePath).slugify
        wEx.exportOptions.slugifyPaths).setExtension "html").path) ∧
    (∃ b, (((wEx.getFilePathFromSrc "missing/file.md" wEx.sourcePath).slugify
        wEx.exportOptions.slugifyPaths).setExtension "html").path = b ++ ".html") ∧
    ("is-unresolved" ∈ (remapLinkStep wEx elMissing).classes ↔
      jsTruthy (resolveLink wEx (elMissing.getAttribute "href") elMissing false) = false) := by
  refine ⟨⟨by decide, by decide, by decide⟩, ?_⟩
  exact claim_C2 wEx elMissing false "missing/file.md" (by decide) (by decide) (by decide)
    (by decide) (by decide) (by decide) (by decide) (by decide) (by decide)

/-- C3: after the heading-allocation pass of `remapLinks`, the ids
assigned to the headings whose normalized text is `t` are exactly
`t_0, …, t_(N-1)` in document order (`N` = number of such headings), and
all assigned heading ids are distinct within the page. -/
theorem claim_C3 (page : List Element) (t : String) :
    (((rawHeadings page).map normalizeHeading).zip (idsOf (headerPass [] page).2)).filterMap
        (fun pr => if pr.1 = t then some pr.2 else none)
      = (List.range (countOcc t ((rawHeadings page).map normalizeHeading))).map
          (fun k => t ++ "_" ++ natStr k) ∧
    (idsOf (headerPass [] page).2).Nodup := by
  have hm0 : ∀ s : String, mapGet ([] : List (String × String)) s =
      if (0 : Nat) = 0 then none else some (natStr (0 - 1)) := by
    intro s
    simp [mapGet]
  have hbridge := (headerPass_eq page []).2
  have hspec := (runHeaders_spec (rawHeadings page) [] (fun _ => 0) hm0).1
  rw [hbridge, hspec]
  constructor
  · rw [idsSpec_filter]
    apply List.map_congr_left
    intro k _
    rw [Nat.zero_add]
  · exact idsSpec_nodup _ _

/-- C4: with relative header links enabled and a link element carrying no
`data-href`, a link `"#Intro"` resolves to `"#Intro_0"` whenever the page
has exactly one heading with normalized text `Intro` (so that first
`Intro` kept suffix 0), and a link `"#Unknown"` whose normalized text is
not a heading of the page is returned unchanged. -/
theorem claim_C4 (hs : List String) (w : WebpageCtx) (el : Element) (pa : Bool)
    (hmap : w.headerMap = (runHeaders [] hs).1)
    (hrel : w.exportOptions.relativeHeaderLinks = true)
    (hdh : el.getAttribute "data-href" = none) :
    (countOcc "Intro" (hs.map normalizeHeading) = 1 →
      resolveLink w (some "#Intro") el pa = some "#Intro_0") ∧
    (countOcc "Unknown" (hs.map normalizeHeading) = 0 →
      resolveLink w (some "#Unknown") el pa = some "#Unknown") := by
  have hm0 : ∀ t, mapGet ([] : List (String × String)) t =
      if (0 : Nat) = 0 then none else some (natStr (0 - 1)) := by
    intro t
    simp [mapGet]
  have hspec := (runHeaders_spec hs [] (fun _ => 0) hm0).2
  constructor
  · intro hcnt
    simp only [resolveLink]
    rw [if_neg (show ¬ ("#Intro" : String) = "" from by decide)]
    rw [if_neg (show ¬ (!strStartsWith "#Intro" "app://" && hasSchemeSepStr "#Intro") = true
      from by decide)]
    rw [if_neg (show ¬ strStartsWith "#Intro" "data:" = true from by decide)]
    rw [if_neg (show ¬ strStartsWith "#Intro" "?" = true from by decide)]
    rw [if_neg (show ¬ strStartsWith "#Intro" "mailto:" = true from by decide)]
    rw [if_pos (show strStartsWith "#Intro" "#" = true from by decide)]
    rw [hdh]
    simp only [Option.getD_none]
    rw [show jsSubstring1 (normalizeHeading "#Intro") = "Intro" from by decide]
    rw [hmap, hspec "Intro", hcnt]
    rw [if_neg (show ¬ (0 + 1 = 0) from by omega)]
    simp only [hrel, if_true]
    rw [show (0 + 1 - 1 : Nat) = 0 from by omega]
    rw [show ("#" ++ "Intro" ++ "_" ++ natStr 0 : String) = "#Intro_0" from by decide]
  · intro hcnt
    simp only [resolveLink]
    rw [if_neg (show ¬ ("#Unknown" : String) = "" from by decide)]
    rw [if_neg (show ¬ (!strStartsWith "#Unknown" "app://" && hasSchemeSepStr "#Unknown") = true
      from by decide)]
    rw [if_neg (show ¬ strStartsWith "#Unknown" "data:" = true from by decide)]
    rw [if_neg (show ¬ strStartsWith "#Unknown" "?" = true from by decide)]
    rw [if_neg (show ¬ strStartsWith "#Unknown" "mailto:" = true from by decide)]
    rw [if_pos (show strStartsWith "#Unknown" "#" = true from by decide)]
    rw [hdh]
    simp only [Option.getD_none]
    rw [show jsSubstring1 (normalizeHeading "#Unknown") = "Unknown" from by decide]
    rw [hmap, hspec "Unknown", hcnt]
    rw [if_pos (show (0 + 0 = 0) from by omega)]

/-- Witness for C4 on the page with headings `Intro` and `Setup`. -/
theorem claim_C4_witness :
    countOcc "Intro" (["Intro", "Setup"].map normalizeHeading) = 1 ∧
    countOcc "Unknown" (["Intro", "Setup"].map normalizeHeading) = 0 ∧
    resolveLink wC4 (some "#Intro") elPlain false = some "#Intro_0" ∧
    resolveLink wC4 (some "#Unknown") elPlain false = some "#Unknown" := by
  have h := claim_C4 ["Intro", "Setup"] wC4 elPlain false rfl rfl (by decide)
  exact ⟨by decide, by decide, h.1 (by decide), h.2 (by decide)⟩

/-- C5: evaluation of `resolveLink` at a bare path resolving to a known
(non-HTML) Attachment.  Resolving `"files/doc.pdf"` with
`preferAttachment` returns `"files/doc.pdf#undefined"` instead of the
Attachment's target path `"files/doc.pdf"`: nothing should be appended
when query and fragment are absent, but the missing parsed hash turns
into a literal `"#undefined"` suffix. -/
theorem claim_C5_divergence :
    resolveLink wEx (some "files/doc.pdf") elPlain true
      = some "files/doc.pdf#undefined" ∧
    ¬ resolveLink wEx (some "files/doc.pdf") elPlain true
      = some "files/doc.pdf" := by
  decide

/-- C6: a reference with an external scheme other than `app://`
(per the `\\w+:(\\/\\/|\\\\\\\\)` regex), a `data:` URI, a query-only
reference, or a `mailto:` reference makes `resolveLink` return the
leave-as-is signal `undefined` (`none`), and the remap pass then writes
the original attribute value back unchanged. -/
theorem claim_C6 (w : WebpageCtx) (el : Element) (pa : Bool) (l : String)
    (h : (strStartsWith l "app://" = false ∧ hasSchemeSepStr l = true)
       ∨ strStartsWith l "data:" = true
       ∨ strStartsWith l "?" = true
       ∨ strStartsWith l "mailto:" = true) :
    resolveLink w (some l) el pa = none ∧
    (el.getAttribute "href" = some l →
      (remapLinkStep w el).getAttribute "href" = some l) := by
  have hne : ¬ l = "" := by
    intro hl
    subst hl
    rcases h with ⟨h1, h2⟩ | h | h | h
    · exact absurd h2 (by decide)
    · exact absurd h (by decide)
    · exact absurd h (by decide)
    · exact absurd h (by decide)
  have hnone : ∀ pb : Bool, resolveLink w (some l) el pb = none := by
    intro pb
    simp only [resolveLink]
    rw [if_neg hne]
    by_cases g1 : (!strStartsWith l "app://" && hasSchemeSepStr l) = true
    · rw [if_pos g1]
    · rw [if_neg g1]
      by_cases g2 : strStartsWith l "data:" = true
      · rw [if_pos g2]
      · rw [if_neg g2]
        by_cases g3 : strStartsWith l "?" = true
        · rw [if_pos g3]
        · rw [if_neg g3]
          by_cases g4 : strStartsWith l "mailto:" = true
          · rw [if_pos g4]
          · exfalso
            rcases h with ⟨h1, h2⟩ | hh | hh | hh
            · exact g1 (by rw [h1, h2]; rfl)
            · exact g2 hh
            · exact g3 hh
            · exact g4 hh
  refine ⟨hnone pa, fun hhref => ?_⟩
  simp only [remapLinkStep]
  rw [hhref]
  simp only [Option.getD_some]
  rw [hnone false]
  rw [getAttribute_classToggle, getAttribute_setAttribute_ne _ _ _ _ (by decide),
    getAttribute_setAttribute_self]
  rfl

/-- Witness for C6 at a concrete external URL. -/
theorem claim_C6_witness :
    ((strStartsWith "https://example.com/x.png" "app://" = false
        ∧ hasSchemeSepStr "https://example.com/x.png" = true)
      ∨ strStartsWith "https://example.com/x.png" "data:" = true
      ∨ strStartsWith "https://example.com/x.png" "?" = true
      ∨ strStartsWith "https://example.com/x.png" "mailto:" = true) ∧
    resolveLink wEx (some "https://example.com/x.png") elExternal false = none ∧
    (elExternal.getAttribute "href" = some "https://example.com/x.png" →
      (remapLinkStep wEx elExternal).getAttribute "href"
        = some "https://example.com/x.png") := by
  refine ⟨Or.inl (by decide), ?_⟩
  exact claim_C6 wEx elExternal false "https://example.com/x.png" (Or.inl (by decide))

/-- C7: across one export run, for each distinct (slide document path,
page number) pair whose render succeeds, `renderFile` is invoked at most
once even when the pair is embedded from multiple pages, and every
reference to that pair resolves to the same cached output Attachment
(namely the one stored in the run-scoped embed cache).  The success
hypothesis is forced by C8: a failing render is retried, so only
successful renders are rendered at most once. -/
theorem claim_C7 (env : EmbedEnv) (reqs : List (String × Nat)) (p : String) (n : Nat)
    (hsucc : (env.renderFile (env.absPathOf p)).isSome = true) :
    countOcc (embedKey p n) (runEmbeds env reqs emptyEmbedState).1.renderCalls ≤ 1 ∧
    ∀ pr ∈ reqs.zip (runEmbeds env reqs emptyEmbedState).2, pr.1 = (p, n) →
      pr.2.isSome = true ∧
      pr.2 = mapGet (runEmbeds env reqs emptyEmbedState).1.cache (embedKey p n) := by
  exact runEmbeds_fresh env reqs p n hsucc emptyEmbedState rfl rfl

/-- Witness for C7: two references to the same slide page with another
embed in between cause at most one render. -/
theorem claim_C7_witness :
    ((envOk.renderFile (envOk.absPathOf "slides/deck.md")).isSome = true) ∧
    (countOcc (embedKey "slides/deck.md" 2)
      (runEmbeds envOk [("slides/deck.md", 2), ("other/page.md", 0), ("slides/deck.md", 2)]
        emptyEmbedState).1.renderCalls ≤ 1 ∧
    ∀ pr ∈ ([("slides/deck.md", 2), ("other/page.md", 0), ("slides/deck.md", 2)] :
        List (String × Nat)).zip
        (runEmbeds envOk [("slides/deck.md", 2), ("other/page.md", 0), ("slides/deck.md", 2)]
          emptyEmbedState).2,
      pr.1 = ("slides/deck.md", 2) →
      pr.2.isSome = true ∧
      pr.2 = mapGet (runEmbeds envOk
        [("slides/deck.md", 2), ("other/page.md", 0), ("slides/deck.md", 2)]
        emptyEmbedState).1.cache (embedKey "slides/deck.md" 2)) := by
  exact ⟨by decide,
    claim_C7 envOk [("slides/deck.md", 2), ("other/page.md", 0), ("slides/deck.md", 2)]
      "slides/deck.md" 2 (by decide)⟩

/-- C8: when the external renderer returns no HTML for a pair, the embed
cache is left unchanged for that key (the whole cache is untouched and the
result is `undefined`), and a later reference to the same pair within the
run invokes the renderer again. -/
theorem claim_C8 (env : EmbedEnv) (p : String) (n : Nat) (st : EmbedState)
    (hfail : env.renderFile (env.absPathOf p) = none)
    (hmiss : mapGet st.cache (embedKey p n) = none) :
    (processEmbed env p n st).1.cache = st.cache ∧
    (processEmbed env p n st).2 = none ∧
    (processEmbed env p n st).1.renderCalls = st.renderCalls ++ [embedKey p n] ∧
    (processEmbed env p n (processEmbed env p n st).1).1.renderCalls
      = st.renderCalls ++ [embedKey p n, embedKey p n] := by
  have h1 : processEmbed env p n st =
      ({ st with renderCalls := st.renderCalls ++ [embedKey p n] }, none) := by
    simp only [processEmbed]
    rw [hmiss, hfail]
  refine ⟨by rw [h1], by rw [h1], by rw [h1], ?_⟩
  rw [h1]
  have h2 : processEmbed env p n { st with renderCalls := st.renderCalls ++ [embedKey p n] } =
      ({ st with renderCalls := (st.renderCalls ++ [embedKey p n]) ++ [embedKey p n] }, none) := by
    simp only [processEmbed]
    rw [show ({ st with renderCalls := st.renderCalls ++ [embedKey p n] } : EmbedState).cache
        = st.cache from rfl, hmiss, hfail]
  rw [h2]
  show (st.renderCalls ++ [embedKey p n]) ++ [embedKey p n] = _
  rw [List.append_assoc]
  rfl

/-- Witness for C8 with an always-failing renderer. -/
theorem claim_C8_witness :
    (envFail.renderFile (envFail.absPathOf "slides/deck.md") = none) ∧
    (mapGet emptyEmbedState.cache (embedKey "slides/deck.md" 1) = none) ∧
    ((processEmbed envFail "slides/deck.md" 1 emptyEmbedState).1.cache = emptyEmbedState.cache ∧
     (processEmbed envFail "slides/deck.md" 1 emptyEmbedState).2 = none ∧
     (processEmbed envFail "slides/deck.md" 1 emptyEmbedState).1.renderCalls
       = emptyEmbedState.renderCalls ++ [embedKey "slides/deck.md" 1] ∧
     (processEmbed envFail "slides/deck.md" 1
        (processEmbed envFail "slides/deck.md" 1 emptyEmbedState).1).1.renderCalls
       = emptyEmbedState.renderCalls ++ [embedKey "slides/deck.md" 1, embedKey "slides/deck.md" 1]) := by
  exact ⟨by decide, by decide,
    claim_C8 envFail "slides/deck.md" 1 emptyEmbedState (by decide) (by decide)⟩

/-- Counterexample to C9 as stated: a `model-viewer` element outside the
`.obsidian-document` container is processed by `remapEmbedLinks` (its
`is-unresolved` class is toggled), yet it carries no `target` attribute
afterwards. -/
theorem claim_C9_counterexample :
    ((remapEmbedLinks wEx [elModelViewer]).headD elModelViewer).getAttribute "target" = none ∧
    "is-unresolved" ∈ ((remapEmbedLinks wEx [elModelViewer]).headD elModelViewer).classes := by
  decide

/-- C9 (amended): after the remap passes, every element processed by the
src-loop or the iframe-loop of `remapEmbedLinks`, and every anchor
processed by `remapLinks`, carries `target=_self`; but a `model-viewer`
element reached only by the model-viewer loop keeps its previous `target`
attribute (the loop omits `setAttribute("target", "_self")`), contrary to
the claim — see `claim_C9_counterexample`. -/
theorem claim_C9 (w : WebpageCtx) (el : Element) :
    (isSrcLinkElement el = true →
      (remapEmbedEl w el).getAttribute "target" = some "_self") ∧
    (el.tag = "IFRAME" →
      (remapEmbedEl w el).getAttribute "target" = some "_self") ∧
    (isHrefLinkElement el = true →
      (remapLinkStep w el).getAttribute "target" = some "_self") ∧
    (el.tag = "MODEL-VIEWER" → isSrcLinkElement el = false →
      (remapEmbedEl w el).getAttribute "target" = el.getAttribute "target") := by
  refine ⟨?_, ?_, fun _ => getAttribute_target_remapLinkStep w el, ?_⟩
  · intro hsrc
    simp only [remapEmbedEl]
    rw [if_pos hsrc]
    by_cases hif : ((remapEmbedSrcStep w el).tag == "IFRAME") = true
    · rw [if_pos hif]
      by_cases hmv : ((remapEmbedSrcStep w (remapEmbedSrcStep w el)).tag == "MODEL-VIEWER") = true
      · rw [if_pos hmv, getAttribute_target_remapModelViewerStep,
          getAttribute_target_remapEmbedSrcStep]
      · rw [if_neg hmv, getAttribute_target_remapEmbedSrcStep]
    · rw [if_neg hif]
      by_cases hmv : ((remapEmbedSrcStep w el).tag == "MODEL-VIEWER") = true
      · rw [if_pos hmv, getAttribute_target_remapModelViewerStep,
          getAttribute_target_remapEmbedSrcStep]
      · rw [if_neg hmv, getAttribute_target_remapEmbedSrcStep]
  · intro htag
    simp only [remapEmbedEl]
    by_cases hsrc : isSrcLinkElement el = true
    · rw [if_pos hsrc]
      have ht1 : ((remapEmbedSrcStep w el).tag == "IFRAME") = true := by
        rw [tag_remapEmbedSrcStep, htag]
        decide
      rw [if_pos ht1]
      have ht2 : ¬ ((remapEmbedSrcStep w (remapEmbedSrcStep w el)).tag == "MODEL-VIEWER") = true := by
        rw [tag_remapEmbedSrcStep, tag_remapEmbedSrcStep, htag]
        decide
      rw [if_neg ht2, getAttribute_target_remapEmbedSrcStep]
    · rw [if_neg hsrc]
      have ht1 : (el.tag == "IFRAME") = true := by
        rw [htag]
        decide
      rw [if_pos ht1]
      have ht2 : ¬ ((remapEmbedSrcStep w el).tag == "MODEL-VIEWER") = true := by
        rw [tag_remapEmbedSrcStep, htag]
        decide
      rw [if_neg ht2, getAttribute_target_remapEmbedSrcStep]
  · intro htag hsrc
    simp only [remapEmbedEl]
    rw [if_neg (ne_true_of_false hsrc)]
    have ht1 : ¬ (el.tag == "IFRAME") = true := by
      rw [htag]
      decide
    rw [if_neg ht1]
    have ht2 : (el.tag == "MODEL-VIEWER") = true := by
      rw [htag]
      decide
    rw [if_pos ht2, getAttribute_target_remapModelViewerStep]

/-- Witness for C9 at the concrete model-viewer element. -/
theorem claim_C9_witness :
    (elModelViewer.tag = "MODEL-VIEWER") ∧ (isSrcLinkElement elModelViewer = false) ∧
    (remapEmbedEl wEx elModelViewer).getAttribute "target"
      = elModelViewer.getAttribute "target" := by
  refine ⟨by decide, by decide, ?_⟩
  exact (claim_C9 wEx elModelViewer).2.2.2 (by decide) (by decide)

/-- Counterexample to C10 as stated: an anchor whose `href` attribute is
the empty string has the `is-unresolved` class toggled ON (not off) by
`remapLinks`, while the attribute value written back is indeed `""`. -/
theorem claim_C10_counterexample :
    ((remapLinks wEx [elEmptyHref]).2.headD elEmptyHref).getAttribute "href" = some "" ∧
    "is-unresolved" ∈ ((remapLinks wEx [elEmptyHref]).2.headD elEmptyHref).classes := by
  decide

/-- C10 (amended): for a `null` or empty-string reference `resolveLink`
returns the empty string — a defined value distinct from the `undefined`
leave-as-is signal, so the remap pass writes an empty attribute value
instead of restoring the original — but the `is-unresolved` class is
toggled ON, not off, because the empty string is falsy in the
`!newHref` toggle; see `claim_C10_counterexample`. -/
theorem claim_C10 (w : WebpageCtx) (el : Element) (b : Bool) :
    resolveLink w none el b = some "" ∧
    resolveLink w (some "") el b = some "" ∧
    (el.getAttribute "href" = some "" →
      (remapLinkStep w el).getAttribute "href" = some "" ∧
      "is-unresolved" ∈ (remapLinkStep w el).classes) := by
  have hres : ∀ pb : Bool, resolveLink w (some "") el pb = some "" := by
    intro pb
    simp only [resolveLink]
    simp
  refine ⟨rfl, hres b, fun hhref => ?_⟩
  constructor
  · simp only [remapLinkStep]
    rw [hhref]
    simp only [Option.getD_some]
    rw [hres false]
    rw [getAttribute_classToggle, getAttribute_setAttribute_ne _ _ _ _ (by decide),
      getAttribute_setAttribute_self]
    rfl
  · rw [mem_unresolved_remapLinkStep, hhref, hres false]
    rfl

/-- Witness for C10 at the concrete empty-href element. -/
theorem claim_C10_witness :
    (elEmptyHref.getAttribute "href" = some "") ∧
    (resolveLink wEx none elEmptyHref false = some "" ∧
     resolveLink wEx (some "") elEmptyHref false = some "" ∧
     ((remapLinkStep wEx elEmptyHref).getAttribute "href" = some "" ∧
      "is-unresolved" ∈ (remapLinkStep wEx elEmptyHref).classes)) := by
  refine ⟨by decide, ?_, ?_, ?_⟩
  · exact (claim_C10 wEx elEmptyHref false).1
  · exact (claim_C10 wEx elEmptyHref false).2.1
  · exact (claim_C10 wEx elEmptyHref false).2.2 (by decide)

end WebpageExport
